import Mathlib

/-!
Verification of the change-detection core of the incremental build tool.

A shallow embedding of the content-addressed incremental build tool
(`src/hash.ts`, `src/lock.ts`, `src/index.ts`, `src/runner.ts`) and proofs
about its change-detection engine: Merkle-root aggregation, lockfile
diffing, and the per-task orchestration loop.

JavaScript `Record<string, string>` objects are embedded as association
lists `List (String × String)` in insertion order; `obj[key]` is
`lookupKey`, `Object.keys` is `map Prod.fst`, and `obj[key] = v` is
`setKey`.  The SHA-256 hasher is abstracted as a parameter
`hash : String → String` applied to the full accumulated byte string
(the source feeds `hasher.update` a sequence of chunks and reads one
digest, i.e. it hashes the concatenation).  Filesystem reads and the
external runner are oracles passed in explicitly; fallible operations
return `Except String`.
-/

namespace Derive

/-- A JS `Record<string, string>` mapping file paths to digests, in
insertion order. -/
abbrev FileSet := List (String × String)

/-- Well-formedness of a JS object: its keys are distinct. -/
def WFKeys {α : Type} (m : List (String × α)) : Prop :=
  (m.map Prod.fst).Nodup

instance {α : Type} (m : List (String × α)) : Decidable (WFKeys m) := by
  unfold WFKeys; infer_instance

/-- JS property read `m[k]`: the value at key `k`, `none` when absent
(`undefined`). -/
def lookupKey {α : Type} : List (String × α) → String → Option α
  | [], _ => none
  | (k', v) :: rest, k => if k = k' then some v else lookupKey rest k

/-- JS property write `m[k] = v`: overwrite in place when the key exists,
append otherwise. -/
def setKey {α : Type} : List (String × α) → String → α → List (String × α)
  | [], k, v => [(k, v)]
  | (k', v') :: rest, k, v =>
      if k = k' then (k, v) :: rest else (k', v') :: setKey rest k v

/-- The lexicographic order on strings used by JavaScript's default
`Array.prototype.sort` comparator, as the order on the underlying
character lists. -/
def pathLE (s t : String) : Prop := s.data ≤ t.data

instance : DecidableRel pathLE := fun s t =>
  inferInstanceAs (Decidable (s.data ≤ t.data))

instance : IsTrans String pathLE :=
  ⟨fun _ _ _ h h' => le_trans (α := List Char) h h'⟩

instance : IsAntisymm String pathLE :=
  ⟨fun a b h h' => by
    cases a; cases b
    exact congrArg String.mk (le_antisymm (α := List Char) h h')⟩

instance : IsTotal String pathLE := ⟨fun a b => le_total a.data b.data⟩

/-- Model of `Object.keys(fileHashes).sort()` from `computeMerkleRoot`
(src/hash.ts): the keys, sorted lexicographically. -/
def sortedPaths (fileHashes : FileSet) : List String :=
  (fileHashes.map Prod.fst).insertionSort pathLE

/-- The byte string fed to the SHA-256 hasher by `computeMerkleRoot`
(src/hash.ts): the concatenation of `` `${path}:${fileHashes[path]}\n` ``
over the sorted paths, accumulated by successive `hasher.update` calls. -/
def serializeFileSet (fileHashes : FileSet) : String :=
  ((sortedPaths fileHashes).map
      (fun path =>
        path ++ ":" ++ (lookupKey fileHashes path).getD "undefined" ++ "\n")).foldl
    (· ++ ·) ""

/-- Model of `computeMerkleRoot` (src/hash.ts), with the SHA-256 digest abstracted
as `hash`: sort the paths, hash the concatenation of the
`"<path>:<digest>\n"` lines in one continuous accumulation, and prefix
`"sha256:"`. -/
def computeMerkleRoot (hash : String → String) (fileHashes : FileSet) : String :=
  "sha256:" ++ hash (serializeFileSet fileHashes)

/-- The `TaskLockEntry` shape (src/types.ts). -/
structure TaskLockEntry where
  last_run : String
  sources_hash : String
  files : FileSet
  deriving Repr, DecidableEq

/-- The `DeriveLock` shape (src/types.ts): version tag plus task-name → entry map. -/
structure DeriveLock where
  version : Nat
  tasks : List (String × TaskLockEntry)
  deriving Repr, DecidableEq

/-- The `TaskDiff` shape (src/types.ts). -/
structure TaskDiff where
  task : String
  changed : Bool
  changed_files : List String
  removed_files : List String
  all_files : List String
  deriving Repr, DecidableEq

/-- Model of `diffTask` (src/lock.ts): no prior entry ⇒ everything new; stored root
equal to current root ⇒ unchanged fast path; otherwise the per-file slow
path, where `changed` is the disjunction of the two lists being
non-empty. -/
def diffTask (taskName : String) (currentFiles : FileSet) (currentRoot : String)
    (lockEntry : Option TaskLockEntry) : TaskDiff :=
  let allFiles := currentFiles.map Prod.fst
  match lockEntry with
  | none =>
      { task := taskName
        changed := true
        changed_files := allFiles
        removed_files := []
        all_files := allFiles }
  | some entry =>
      if entry.sources_hash = currentRoot then
        { task := taskName
          changed := false
          changed_files := []
          removed_files := []
          all_files := allFiles }
      else
        let changed :=
          (currentFiles.filter
              (fun pv => !(lookupKey entry.files pv.1 == some pv.2))).map Prod.fst
        let removed :=
          (entry.files.map Prod.fst).filter
            (fun path => lookupKey currentFiles path == none)
        { task := taskName
          changed := decide (0 < changed.length) || decide (0 < removed.length)
          changed_files := changed
          removed_files := removed
          all_files := allFiles }

/-- Model of `assemblePrompt` (src/runner.ts): the XML-style envelope
`["<prompt>…</prompt>", "<changed-files>…</changed-files>"].join("\n")`
with the changed files joined by `", "`. -/
def assemblePrompt (userPrompt : String) (changedFiles : List String) : String :=
  "<prompt>" ++ userPrompt ++ "</prompt>" ++ "\n" ++
    "<changed-files>" ++ String.intercalate ", " changedFiles ++ "</changed-files>"

/-- The per-task data `prepareTask` (src/index.ts) assembles before the
run decision: the `TaskContext` fields the run/lock logic reads. -/
structure TaskContext where
  name : String
  prompt : String
  fileHashes : FileSet
  merkleRoot : String
  diff : TaskDiff
  deriving Repr, DecidableEq

/-- What one `runTask` call (src/index.ts) did: the prompts it passed to
`executeRunner`, in order, and the lock entry it returned (`none` for the
JS `null`). -/
structure RunResult where
  invoked : List String
  entry : Option TaskLockEntry
  deriving Repr, DecidableEq

/-- Model of `runTask` (src/index.ts) with the external runner abstracted by its
observed exit code and `new Date().toISOString()` by `now`: skip when
neither changed nor forced; otherwise assemble the prompt, invoke the
runner once, and return a fresh lock entry exactly when it exited 0. -/
def runTask (force : Bool) (ctx : TaskContext) (exitCode : Int) (now : String) :
    RunResult :=
  if !(ctx.diff.changed || force) then
    { invoked := [], entry := none }
  else
    let prompt := assemblePrompt ctx.prompt ctx.diff.changed_files
    if exitCode ≠ 0 then
      { invoked := [prompt], entry := none }
    else
      { invoked := [prompt]
        entry := some
          { last_run := now
            sources_hash := ctx.merkleRoot
            files := ctx.fileHashes } }

/-- Model of `hashFile` (src/hash.ts) with the filesystem abstracted as a partial
map from path to content digest: resolve with the digest when the file is
readable, reject with a stream error when it is not. -/
def hashFile (fsys : String → Option String) (path : String) :
    Except String String :=
  match fsys path with
  | some digest => Except.ok digest
  | none => Except.error ("ENOENT: " ++ path)

/-- The hashing loop of `prepareTask` (src/index.ts):
`for (const file of files) fileHashes[file] = await hashFile(file)` —
each entry is appended in turn, and the first rejected `hashFile` promise
escapes the loop as an error. -/
def hashAllFiles (fsys : String → Option String) :
    List String → Except String FileSet
  | [] => Except.ok []
  | f :: rest => do
    let digest ← hashFile fsys f
    let tail ← hashAllFiles fsys rest
    Except.ok ((f, digest) :: tail)

/-- The per-task configuration as the orchestrator sees it after config
loading and glob resolution: the prompt text and the resolved file list
(`resolveFiles` is an external glob call, modelled by its output). -/
structure TaskSpec where
  prompt : String
  files : List String
  deriving Repr, DecidableEq

/-- Model of `prepareTask` (src/index.ts): resolve files (here: given), return
`none` ("no files matched") on an empty list, otherwise hash every file,
compute the Merkle root, and diff against the task's entry in the loaded
lock.  A hashing failure is not caught and escapes as an error. -/
def prepareTask (hash : String → String) (fsys : String → Option String)
    (spec : TaskSpec) (name : String) (lock : DeriveLock) :
    Except String (Option TaskContext) :=
  if spec.files.isEmpty then Except.ok none
  else do
    let fileHashes ← hashAllFiles fsys spec.files
    let merkleRoot := computeMerkleRoot hash fileHashes
    let diff := diffTask name fileHashes merkleRoot (lookupKey lock.tasks name)
    Except.ok (some
      { name := name
        prompt := spec.prompt
        fileHashes := fileHashes
        merkleRoot := merkleRoot
        diff := diff })

/-- The invocation flags `processTasks` (src/index.ts) reads. -/
structure Args where
  force : Bool
  dryRun : Bool
  status : Bool
  deriving Repr, DecidableEq

/-- The loop body of `processTasks` (src/index.ts), recursing over the
remaining task names with the working-copy lock and `anyFailed`
accumulators.  `specs`, `fsys`, `exit_` and `now` are the external
config, filesystem and runner oracles; diffs are taken against the
original `lock`, updates go to the accumulator.  An error escaping
`prepareTask` aborts the whole loop. -/
def processTasksGo (hash : String → String) (fsys : String → Option String)
    (specs : String → TaskSpec) (exit_ : String → Int) (now : String → String)
    (lock : DeriveLock) (args : Args) :
    List String → DeriveLock → Bool → Except String (DeriveLock × Bool)
  | [], acc, anyFailed => Except.ok (acc, anyFailed)
  | taskName :: rest, acc, anyFailed => do
    match ← prepareTask hash fsys (specs taskName) taskName lock with
    | none => processTasksGo hash fsys specs exit_ now lock args rest acc anyFailed
    | some ctx =>
      if args.status then
        processTasksGo hash fsys specs exit_ now lock args rest acc anyFailed
      else if args.dryRun then
        processTasksGo hash fsys specs exit_ now lock args rest acc anyFailed
      else
        match (runTask args.force ctx (exit_ taskName) (now taskName)).entry with
        | some entry =>
            processTasksGo hash fsys specs exit_ now lock args rest
              { version := acc.version, tasks := setKey acc.tasks taskName entry }
              anyFailed
        | none =>
            if ctx.diff.changed || args.force then
              processTasksGo hash fsys specs exit_ now lock args rest acc true
            else
              processTasksGo hash fsys specs exit_ now lock args rest acc anyFailed

/-- Model of `processTasks` (src/index.ts): start from
`{version: 1, tasks: {...lock.tasks}}` and `anyFailed = false` and fold
the loop body over the task names. -/
def processTasks (hash : String → String) (fsys : String → Option String)
    (specs : String → TaskSpec) (exit_ : String → Int) (now : String → String)
    (taskNames : List String) (lock : DeriveLock) (args : Args) :
    Except String (DeriveLock × Bool) :=
  processTasksGo hash fsys specs exit_ now lock args taskNames
    { version := 1, tasks := lock.tasks } false

/-- The on-disk state `readLock` (src/lock.ts) can encounter: no file,
a file that is not valid lock JSON, or a valid serialized lock. -/
inductive LockFileState where
  | missing
  | malformed (raw : String)
  | valid (lock : DeriveLock)
  deriving Repr, DecidableEq

/-- Model of `readLock` (src/lock.ts): an absent file yields the empty lock
`{version: 1, tasks: {}}`; otherwise `Bun.file(lockPath).json()` is
returned — it throws (an uncaught error) when the contents are not valid
JSON. -/
def readLock : LockFileState → Except String DeriveLock
  | LockFileState.missing => Except.ok { version := 1, tasks := [] }
  | LockFileState.malformed raw => Except.error ("JSON Parse error: " ++ raw)
  | LockFileState.valid lock => Except.ok lock

/-! Helper lemmas about the JS-object operations. -/

theorem lookupKey_eq_none_iff {α : Type} (m : List (String × α)) (k : String) :
    lookupKey m k = none ↔ k ∉ m.map Prod.fst := by
  induction m with
  | nil => simp [lookupKey]
  | cons hd tl ih =>
    obtain ⟨k', v⟩ := hd
    by_cases h : k = k' <;> simp [lookupKey, h, ih]

theorem lookupKey_mem {α : Type} {m : List (String × α)} {k : String} {v : α}
    (h : lookupKey m k = some v) : (k, v) ∈ m := by
  induction m with
  | nil => simp [lookupKey] at h
  | cons hd tl ih =>
    obtain ⟨k', v'⟩ := hd
    by_cases hk : k = k'
    · simp [lookupKey, hk] at h
      simp [hk, h]
    · simp [lookupKey, hk] at h
      exact List.mem_cons_of_mem _ (ih h)

theorem lookupKey_eq_some_iff {α : Type} {m : List (String × α)} (hm : WFKeys m)
    {k : String} {v : α} : lookupKey m k = some v ↔ (k, v) ∈ m := by
  constructor
  · exact lookupKey_mem
  · intro hmem
    induction m with
    | nil => simp at hmem
    | cons hd tl ih =>
      obtain ⟨k', v'⟩ := hd
      have hm' : WFKeys tl := by
        simpa [WFKeys] using (List.nodup_cons.mp hm).2
      rcases List.mem_cons.mp hmem with heq | htl
      · obtain ⟨hk, hv⟩ := Prod.mk.injEq .. ▸ heq
        simp [lookupKey, hk, hv]
      · have hk : k ≠ k' := by
          rintro rfl
          exact (List.nodup_cons.mp hm).1
            (List.mem_map.mpr ⟨(k, v), htl, rfl⟩)
        simp [lookupKey, hk]
        exact ih hm' htl

theorem lookupKey_setKey {α : Type} (m : List (String × α)) (k : String) (v : α)
    (t : String) :
    lookupKey (setKey m k v) t = if t = k then some v else lookupKey m t := by
  induction m with
  | nil => by_cases h : t = k <;> simp [setKey, lookupKey, h]
  | cons hd tl ih =>
    obtain ⟨k', v'⟩ := hd
    by_cases hk : k = k'
    · subst hk
      by_cases ht : t = k <;> simp [setKey, lookupKey, ht]
    · by_cases ht : t = k'
      · subst ht
        have ht' : ¬t = k := fun h => hk h.symm
        simp [setKey, hk, lookupKey, ht']
      · simp [setKey, hk, lookupKey, ht, ih]

theorem lookupKey_eq_of_perm {α : Type} {A B : List (String × α)} (hA : WFKeys A)
    (hperm : A.Perm B) (k : String) : lookupKey A k = lookupKey B k := by
  have hB : WFKeys B := (hperm.map Prod.fst).nodup hA
  cases hv : lookupKey A k with
  | some v =>
      exact ((lookupKey_eq_some_iff hB).mpr
        (hperm.mem_iff.mp (lookupKey_mem hv))).symm
  | none =>
      cases hw : lookupKey B k with
      | none => rfl
      | some w =>
          have : (k, w) ∈ A := hperm.mem_iff.mpr (lookupKey_mem hw)
          rw [(lookupKey_eq_some_iff hA).mpr this] at hv
          cases hv

theorem sortedPaths_eq_of_perm {A B : FileSet} (hperm : A.Perm B) :
    sortedPaths A = sortedPaths B :=
  List.eq_of_perm_of_sorted
    ((List.perm_insertionSort pathLE _).trans
      ((hperm.map Prod.fst).trans (List.perm_insertionSort pathLE _).symm))
    (List.sorted_insertionSort pathLE _)
    (List.sorted_insertionSort pathLE _)

theorem serializeFileSet_eq_of_perm {A B : FileSet} (hA : WFKeys A)
    (hperm : A.Perm B) : serializeFileSet A = serializeFileSet B := by
  unfold serializeFileSet
  rw [sortedPaths_eq_of_perm hperm]
  congr 1
  exact List.map_congr_left fun p _ => by rw [lookupKey_eq_of_perm hA hperm]

/-- C1: the Merkle root is a pure function of the map's contents: any two
file sets with exactly the same (path, digest) pairs — whatever their
insertion or enumeration order — produce the same `"sha256:<hex>"` root. -/
theorem computeMerkleRoot_eq_of_perm (hash : String → String) (A B : FileSet)
    (hA : WFKeys A) (hperm : A.Perm B) :
    computeMerkleRoot hash A = computeMerkleRoot hash B := by
  unfold computeMerkleRoot
  rw [serializeFileSet_eq_of_perm hA hperm]

theorem computeMerkleRoot_eq_of_perm_witness :
    WFKeys [("b", "x"), ("a", "y")] ∧
      computeMerkleRoot id [("b", "x"), ("a", "y")] =
        computeMerkleRoot id [("a", "y"), ("b", "x")] :=
  ⟨by decide,
    computeMerkleRoot_eq_of_perm id _ _ (by decide) (by decide)⟩

/-- C7: with no prior lock entry, `diffTask` reports everything changed:
`changed = true`, `changed_files` is the whole current path list, and
`removed_files` is empty. -/
theorem diffTask_no_prior (taskName : String) (currentFiles : FileSet)
    (currentRoot : String) :
    diffTask taskName currentFiles currentRoot none =
      { task := taskName
        changed := true
        changed_files := currentFiles.map Prod.fst
        removed_files := []
        all_files := currentFiles.map Prod.fst } := rfl

theorem diffTask_no_prior_witness :
    diffTask "docs" [("a.md", "sha256:aa"), ("b.md", "sha256:bb")] "sha256:r" none =
      { task := "docs"
        changed := true
        changed_files := ["a.md", "b.md"]
        removed_files := []
        all_files := ["a.md", "b.md"] } :=
  diffTask_no_prior "docs" [("a.md", "sha256:aa"), ("b.md", "sha256:bb")] "sha256:r"

/-- C8: when the stored root equals the current root, `diffTask` takes the
fast path: `changed = false` and both lists empty.  The result is the
record shown, which depends only on the task name and the current key
list — the per-file digest maps are not consulted. -/
theorem diffTask_fast_path (taskName : String) (currentFiles : FileSet)
    (currentRoot : String) (entry : TaskLockEntry)
    (h : entry.sources_hash = currentRoot) :
    diffTask taskName currentFiles currentRoot (some entry) =
      { task := taskName
        changed := false
        changed_files := []
        removed_files := []
        all_files := currentFiles.map Prod.fst } := by
  simp [diffTask, h]

theorem diffTask_fast_path_witness :
    diffTask "docs" [("a.md", "sha256:aa")] "sha256:root"
        (some { last_run := "2024-01-01"
                sources_hash := "sha256:root"
                files := [("zz", "sha256:qq")] }) =
      { task := "docs"
        changed := false
        changed_files := []
        removed_files := []
        all_files := ["a.md"] } :=
  diffTask_fast_path "docs" [("a.md", "sha256:aa")] "sha256:root"
    { last_run := "2024-01-01", sources_hash := "sha256:root"
      files := [("zz", "sha256:qq")] } rfl

/-- C9: in every branch of `diffTask`, `all_files` is exactly the current
key list, every changed file is a current file, every removed file is not
a current file, and hence the two lists are disjoint. -/
theorem diffTask_structural_invariant (taskName : String) (currentFiles : FileSet)
    (currentRoot : String) (lockEntry : Option TaskLockEntry) :
    (diffTask taskName currentFiles currentRoot lockEntry).all_files =
        currentFiles.map Prod.fst ∧
      (∀ p ∈ (diffTask taskName currentFiles currentRoot lockEntry).changed_files,
        p ∈ (diffTask taskName currentFiles currentRoot lockEntry).all_files) ∧
      (∀ p ∈ (diffTask taskName currentFiles currentRoot lockEntry).removed_files,
        p ∉ (diffTask taskName currentFiles currentRoot lockEntry).all_files) ∧
      (∀ p ∈ (diffTask taskName currentFiles currentRoot lockEntry).changed_files,
        p ∉ (diffTask taskName currentFiles currentRoot lockEntry).removed_files) := by
  match lockEntry with
  | none =>
      refine ⟨rfl, fun p hp => hp, by simp [diffTask], fun p hp => by simp [diffTask]⟩
  | some entry =>
      by_cases h : entry.sources_hash = currentRoot
      · simp [diffTask, h]
      · have hchanged : ∀ p ∈ ((currentFiles.filter
            (fun pv => !(lookupKey entry.files pv.1 == some pv.2))).map Prod.fst),
            p ∈ currentFiles.map Prod.fst := by
          intro p hp
          obtain ⟨pv, hpv, rfl⟩ := List.mem_map.mp hp
          exact List.mem_map.mpr ⟨pv, List.mem_of_mem_filter hpv, rfl⟩
        have hremoved : ∀ p ∈ ((entry.files.map Prod.fst).filter
            (fun path => lookupKey currentFiles path == none)),
            p ∉ currentFiles.map Prod.fst := by
          intro p hp
          have := List.of_mem_filter hp
          exact (lookupKey_eq_none_iff currentFiles p).mp (by simpa using this)
        refine ⟨by simp [diffTask, h], ?_, ?_, ?_⟩
        · simpa [diffTask, h] using hchanged
        · simpa [diffTask, h] using hremoved
        · intro p hp hq
          have hp' : p ∈ currentFiles.map Prod.fst := by
            apply hchanged
            simpa [diffTask, h] using hp
          have hq' : p ∉ currentFiles.map Prod.fst := by
            apply hremoved
            simpa [diffTask, h] using hq
          exact hq' hp'

theorem diffTask_structural_invariant_witness :
    (diffTask "t" [("a", "d1"), ("b", "d2")] "sha256:r1"
        (some { last_run := "ts", sources_hash := "sha256:r2"
                files := [("a", "d0"), ("c", "d3")] })).all_files =
        ["a", "b"] ∧
      (∀ p ∈ (diffTask "t" [("a", "d1"), ("b", "d2")] "sha256:r1"
          (some { last_run := "ts", sources_hash := "sha256:r2"
                  files := [("a", "d0"), ("c", "d3")] })).changed_files,
        p ∈ (diffTask "t" [("a", "d1"), ("b", "d2")] "sha256:r1"
          (some { last_run := "ts", sources_hash := "sha256:r2"
                  files := [("a", "d0"), ("c", "d3")] })).all_files) ∧
      (∀ p ∈ (diffTask "t" [("a", "d1"), ("b", "d2")] "sha256:r1"
          (some { last_run := "ts", sources_hash := "sha256:r2"
                  files := [("a", "d0"), ("c", "d3")] })).removed_files,
        p ∉ (diffTask "t" [("a", "d1"), ("b", "d2")] "sha256:r1"
          (some { last_run := "ts", sources_hash := "sha256:r2"
                  files := [("a", "d0"), ("c", "d3")] })).all_files) ∧
      (∀ p ∈ (diffTask "t" [("a", "d1"), ("b", "d2")] "sha256:r1"
          (some { last_run := "ts", sources_hash := "sha256:r2"
                  files := [("a", "d0"), ("c", "d3")] })).changed_files,
        p ∉ (diffTask "t" [("a", "d1"), ("b", "d2")] "sha256:r1"
          (some { last_run := "ts", sources_hash := "sha256:r2"
                  files := [("a", "d0"), ("c", "d3")] })).removed_files) := by
  have h := diffTask_structural_invariant "t" [("a", "d1"), ("b", "d2")] "sha256:r1"
    (some { last_run := "ts", sources_hash := "sha256:r2"
            files := [("a", "d0"), ("c", "d3")] })
  exact ⟨h.1.trans (by decide), h.2.1, h.2.2.1, h.2.2.2⟩

/-- C3 counterexample: a prior entry whose stored root differs from the
current root while every current path keeps its prior digest and no prior
path is missing — the slow path produces two empty lists and the code
returns `changed = false`, not the conservative `changed = true` the
claim describes. -/
theorem diffTask_root_mismatch_empty_counterexample :
    "sha256:r2" ≠ "sha256:r1" ∧
      lookupKey [("a", "d1")] "a" = some "d1" ∧
      lookupKey [("a", "d1")] "a" ≠ none ∧
      diffTask "t" [("a", "d1")] "sha256:r1"
          (some { last_run := "ts", sources_hash := "sha256:r2"
                  files := [("a", "d1")] }) =
        { task := "t"
          changed := false
          changed_files := []
          removed_files := []
          all_files := ["a"] } := by
  refine ⟨by decide, by decide, by decide, by decide⟩

/-- C3 amended: when a prior entry exists, its stored root differs from
the current root, every current path has its prior digest, and no prior
path is missing from the current set, `diffTask` returns
`changed = false` with both lists empty (there is no conservative
`changed = true` fallback in the code). -/
theorem diffTask_root_mismatch_empty (taskName : String) (currentFiles : FileSet)
    (currentRoot : String) (entry : TaskLockEntry)
    (hroot : entry.sources_hash ≠ currentRoot)
    (hsame : ∀ pv ∈ currentFiles, lookupKey entry.files pv.1 = some pv.2)
    (hkeep : ∀ p ∈ entry.files.map Prod.fst, p ∈ currentFiles.map Prod.fst) :
    diffTask taskName currentFiles currentRoot (some entry) =
      { task := taskName
        changed := false
        changed_files := []
        removed_files := []
        all_files := currentFiles.map Prod.fst } := by
  have hc : currentFiles.filter
      (fun pv => !(lookupKey entry.files pv.1 == some pv.2)) = [] := by
    rw [List.filter_eq_nil_iff]
    intro pv hpv
    simp [hsame pv hpv]
  have hr : (entry.files.map Prod.fst).filter
      (fun path => lookupKey currentFiles path == none) = [] := by
    rw [List.filter_eq_nil_iff]
    intro p hp
    have : lookupKey currentFiles p ≠ none := fun hnone =>
      (lookupKey_eq_none_iff currentFiles p).mp hnone (hkeep p hp)
    simpa using this
  simp [diffTask, hroot, hc, hr]

theorem diffTask_root_mismatch_empty_witness :
    ("sha256:r2" : String) ≠ "sha256:r1" ∧
      diffTask "t" [("a", "d1")] "sha256:r1"
          (some { last_run := "ts", sources_hash := "sha256:r2"
                  files := [("a", "d1")] }) =
        { task := "t"
          changed := false
          changed_files := []
          removed_files := []
          all_files := ["a"] } :=
  ⟨by decide,
    diffTask_root_mismatch_empty "t" [("a", "d1")] "sha256:r1"
      { last_run := "ts", sources_hash := "sha256:r2", files := [("a", "d1")] }
      (by decide) (by decide) (by decide)⟩

/-- C10: in force mode with a diff reporting no changes, `runTask` still
invokes the runner exactly once, and the single prompt it passes is the
configured prompt text with an empty `<changed-files>` element. -/
theorem runTask_forced_unchanged (ctx : TaskContext) (exitCode : Int)
    (now : String) (hchanged : ctx.diff.changed = false)
    (hfiles : ctx.diff.changed_files = []) :
    (runTask true ctx exitCode now).invoked =
      ["<prompt>" ++ ctx.prompt ++ "</prompt>" ++ "\n" ++
        "<changed-files>" ++ "" ++ "</changed-files>"] := by
  have hp : assemblePrompt ctx.prompt ctx.diff.changed_files =
      "<prompt>" ++ ctx.prompt ++ "</prompt>" ++ "\n" ++
        "<changed-files>" ++ "" ++ "</changed-files>" := by
    rw [hfiles]
    rfl
  by_cases he : exitCode ≠ 0 <;>
    simp [runTask, hchanged, he, hp]

theorem runTask_forced_unchanged_witness :
    ({ task := "t", changed := false, changed_files := [], removed_files := []
       all_files := ["a"] } : TaskDiff).changed = false ∧
      (runTask true
          { name := "t", prompt := "Describe"
            fileHashes := [("a", "sha256:aa")], merkleRoot := "sha256:r"
            diff := { task := "t", changed := false, changed_files := []
                      removed_files := [], all_files := ["a"] } }
          0 "2024-01-01").invoked =
        ["<prompt>" ++ "Describe" ++ "</prompt>" ++ "\n" ++
          "<changed-files>" ++ "" ++ "</changed-files>"] :=
  ⟨rfl,
    runTask_forced_unchanged
      { name := "t", prompt := "Describe"
        fileHashes := [("a", "sha256:aa")], merkleRoot := "sha256:r"
        diff := { task := "t", changed := false, changed_files := []
                  removed_files := [], all_files := ["a"] } }
      0 "2024-01-01" rfl rfl⟩

/-- C5 counterexample: a missing lockfile is the empty lock, but a
malformed lockfile makes `readLock` raise the JSON parse error rather
than return the empty lock — the error propagates and aborts the
invocation. -/
theorem readLock_malformed_counterexample :
    readLock LockFileState.missing = Except.ok { version := 1, tasks := [] } ∧
      readLock (LockFileState.malformed "not json") =
        Except.error "JSON Parse error: not json" ∧
      (readLock (LockFileState.malformed "not json")).toOption = none :=
  ⟨rfl, rfl, rfl⟩

/-- C5 amended: `readLock` returns the empty lock `{version: 1, tasks: {}}`
when the lockfile is missing and the parsed lock when it is valid, but a
lockfile whose contents are malformed raises the parse error — an
uncaught error that aborts the invocation, not an empty-lock-with-warning
fallback. -/
theorem readLock_spec (st : LockFileState) :
    readLock st =
      match st with
      | LockFileState.missing => Except.ok { version := 1, tasks := [] }
      | LockFileState.malformed raw =>
          Except.error ("JSON Parse error: " ++ raw)
      | LockFileState.valid lock => Except.ok lock := by
  cases st <;> rfl

theorem readLock_spec_witness :
    readLock LockFileState.missing = Except.ok { version := 1, tasks := [] } :=
  readLock_spec LockFileState.missing

/-! Injectivity analysis of the Merkle-root serialization.  The byte
string hashed by `computeMerkleRoot` is the concatenation of
`"<path>:<digest>\n"` lines; at the character-list level this is
`encodeLines` below, which is injective on entry lists whose paths and
digests are newline-free and whose digests share one length. -/

/-- The canonical entry list of a file set: each sorted path paired with
the digest the serialization prints for it. -/
def entriesOf (fs : FileSet) : List (String × String) :=
  (sortedPaths fs).map (fun p => (p, (lookupKey fs p).getD "undefined"))

/-- The character-level entry list of a file set. -/
def entriesChar (fs : FileSet) : List (List Char × List Char) :=
  (sortedPaths fs).map
    (fun p => (p.data, ((lookupKey fs p).getD "undefined").data))

/-- Character-level rendering of `"<path>:<digest>\n"` lines. -/
def encodeLines : List (List Char × List Char) → List Char
  | [] => []
  | (p, d) :: rest => p ++ ':' :: (d ++ '\n' :: encodeLines rest)

theorem colon_data : (":" : String).data = [':'] := rfl

theorem newline_data : ("\n" : String).data = ['\n'] := rfl

theorem serialize_go (fs : FileSet) (ps : List String) (init : String) :
    ((ps.map (fun path =>
        path ++ ":" ++ (lookupKey fs path).getD "undefined" ++ "\n")).foldl
      (· ++ ·) init).data =
      init.data ++ encodeLines (ps.map
        (fun p => (p.data, ((lookupKey fs p).getD "undefined").data))) := by
  induction ps generalizing init with
  | nil => simp [encodeLines]
  | cons p rest ih =>
      rw [List.map_cons, List.foldl_cons, ih]
      simp [encodeLines, String.data_append, colon_data, newline_data,
        List.append_assoc]

theorem serializeFileSet_data (fs : FileSet) :
    (serializeFileSet fs).data = encodeLines (entriesChar fs) := by
  unfold serializeFileSet entriesChar
  simpa using serialize_go fs (sortedPaths fs) ""

/-- Entry lists on which `encodeLines` is injective: newline-free paths
and digests, all digests of length `L`. -/
def OkLines (L : Nat) (l : List (List Char × List Char)) : Prop :=
  ∀ e ∈ l, '\n' ∉ e.1 ∧ '\n' ∉ e.2 ∧ e.2.length = L

theorem no_newline_split :
    ∀ (a a' b b' : List Char), '\n' ∉ a → '\n' ∉ a' →
      a ++ '\n' :: b = a' ++ '\n' :: b' → a = a' ∧ b = b' := by
  intro a
  induction a with
  | nil =>
      intro a' b b' _ ha' h
      cases a' with
      | nil => simpa using h
      | cons c t =>
          rw [List.nil_append, List.cons_append] at h
          injection h with h1 h2
          exact absurd (h1 ▸ List.mem_cons_self c t) ha'
  | cons c t ih =>
      intro a' b b' ha ha' h
      cases a' with
      | nil =>
          rw [List.cons_append, List.nil_append] at h
          injection h with h1 h2
          exact absurd (h1 ▸ List.mem_cons_self c t) ha
      | cons c' t' =>
          rw [List.cons_append, List.cons_append] at h
          injection h with h1 h2
          obtain ⟨ht, hb⟩ := ih t' b b'
            (fun hx => ha (List.mem_cons_of_mem c hx))
            (fun hx => ha' (List.mem_cons_of_mem c' hx)) h2
          exact ⟨by rw [h1, ht], hb⟩

theorem encodeLines_injective (L : Nat) :
    ∀ l₁ l₂ : List (List Char × List Char), OkLines L l₁ → OkLines L l₂ →
      encodeLines l₁ = encodeLines l₂ → l₁ = l₂ := by
  intro l₁
  induction l₁ with
  | nil =>
      intro l₂ _ _ h
      cases l₂ with
      | nil => rfl
      | cons e r =>
          obtain ⟨p, d⟩ := e
          exfalso
          rw [encodeLines, encodeLines] at h
          exact absurd h.symm (by simp)
  | cons e r ih =>
      intro l₂ h1 h2 h
      obtain ⟨p, d⟩ := e
      cases l₂ with
      | nil =>
          exfalso
          rw [encodeLines, encodeLines] at h
          exact absurd h (by simp)
      | cons e' r' =>
          obtain ⟨p', d'⟩ := e'
          have he := h1 (p, d) (List.mem_cons_self _ _)
          have he' := h2 (p', d') (List.mem_cons_self _ _)
          have key : (p ++ ':' :: d) ++ '\n' :: encodeLines r =
              (p' ++ ':' :: d') ++ '\n' :: encodeLines r' := by
            simpa [encodeLines, List.append_assoc] using h
          have hnl : '\n' ∉ p ++ ':' :: d := by
            intro hx
            rcases List.mem_append.mp hx with hx | hx
            · exact he.1 hx
            · rcases List.mem_cons.mp hx with hx | hx
              · cases hx
              · exact he.2.1 hx
          have hnl' : '\n' ∉ p' ++ ':' :: d' := by
            intro hx
            rcases List.mem_append.mp hx with hx | hx
            · exact he'.1 hx
            · rcases List.mem_cons.mp hx with hx | hx
              · cases hx
              · exact he'.2.1 hx
          obtain ⟨hline, hrest⟩ := no_newline_split _ _ _ _ hnl hnl' key
          have hlen : (':' :: d).length = (':' :: d').length := by
            simp [he.2.2, he'.2.2]
          obtain ⟨hp, hd⟩ := List.append_inj' hline hlen
          injection hd with _ hd
          have htl := ih r'
            (fun x hx => h1 x (List.mem_cons_of_mem _ hx))
            (fun x hx => h2 x (List.mem_cons_of_mem _ hx)) hrest
          rw [hp, hd, htl]

theorem mem_entriesOf {fs : FileSet} {p d : String} :
    (p, d) ∈ entriesOf fs ↔ lookupKey fs p = some d := by
  constructor
  · intro h
    obtain ⟨q, hq, heq⟩ := List.mem_map.mp h
    obtain ⟨hqp, hd⟩ := Prod.mk.injEq .. ▸ heq
    subst hqp
    have hmem : q ∈ fs.map Prod.fst := (List.mem_insertionSort pathLE).mp hq
    cases hl : lookupKey fs q with
    | none => exact absurd hmem ((lookupKey_eq_none_iff fs q).mp hl)
    | some v =>
        rw [hl] at hd
        simpa using hd
  · intro h
    have hmem : p ∈ fs.map Prod.fst := by
      by_contra hc
      rw [← lookupKey_eq_none_iff] at hc
      rw [h] at hc
      cases hc
    exact List.mem_map.mpr
      ⟨p, (List.mem_insertionSort pathLE).mpr hmem, by simp [h]⟩

theorem entriesChar_eq_map (fs : FileSet) :
    entriesChar fs = (entriesOf fs).map (fun pd => (pd.1.data, pd.2.data)) := by
  unfold entriesChar entriesOf
  rw [List.map_map]
  rfl

theorem entriesOf_eq_of_entriesChar {A B : FileSet}
    (h : entriesChar A = entriesChar B) : entriesOf A = entriesOf B := by
  rw [entriesChar_eq_map, entriesChar_eq_map] at h
  have hinj : Function.Injective
      (fun pd : String × String => (pd.1.data, pd.2.data)) := by
    rintro ⟨a, b⟩ ⟨c, e⟩ hpd
    obtain ⟨h1, h2⟩ := Prod.mk.injEq .. ▸ hpd
    exact Prod.ext (String.ext h1) (String.ext h2)
  exact List.map_injective_iff.mpr hinj h

theorem lookupKey_eq_of_entriesOf {A B : FileSet}
    (h : entriesOf A = entriesOf B) (p : String) :
    lookupKey A p = lookupKey B p := by
  cases hv : lookupKey A p with
  | some v =>
      have : (p, v) ∈ entriesOf B := h ▸ mem_entriesOf.mpr hv
      exact (mem_entriesOf.mp this).symm
  | none =>
      cases hw : lookupKey B p with
      | none => rfl
      | some w =>
          have : (p, w) ∈ entriesOf A := h.symm ▸ mem_entriesOf.mpr hw
          rw [mem_entriesOf.mp this] at hv
          cases hv

theorem okLines_entriesChar {fs : FileSet} {L : Nat}
    (hok : ∀ pd ∈ fs, '\n' ∉ pd.1.data ∧ '\n' ∉ pd.2.data ∧ pd.2.length = L) :
    OkLines L (entriesChar fs) := by
  intro e he
  obtain ⟨p, hp, rfl⟩ := List.mem_map.mp he
  have hmem : p ∈ fs.map Prod.fst := (List.mem_insertionSort pathLE).mp hp
  cases hl : lookupKey fs p with
  | none => exact absurd hmem ((lookupKey_eq_none_iff fs p).mp hl)
  | some v =>
      have := hok (p, v) (lookupKey_mem hl)
      simpa using ⟨this.1, this.2.1, this.2.2⟩

/-- C2 counterexample: two file sets that plainly differ — the first
contains paths `"a"` and `"b"`, the second only a single path absent from
the first — yet serialize to the same byte string, because an unescaped
`":"`/`"\n"` inside a path reproduces another set's lines; hashing that
byte string therefore yields the same root for every digest function. -/
theorem computeMerkleRoot_collision_counterexample :
    lookupKey [("a", "sha256:aa"), ("b", "sha256:bb")] "a" = some "sha256:aa" ∧
      lookupKey [("a:sha256:aa\nb", "sha256:bb")] "a" = none ∧
      serializeFileSet [("a", "sha256:aa"), ("b", "sha256:bb")] =
        serializeFileSet [("a:sha256:aa\nb", "sha256:bb")] ∧
      computeMerkleRoot id [("a", "sha256:aa"), ("b", "sha256:bb")] =
        computeMerkleRoot id [("a:sha256:aa\nb", "sha256:bb")] :=
  ⟨by decide, by decide, by decide, by decide⟩

/-- C2 amended: restricted to file sets whose paths and digests contain no
newline and whose digests all share one length `L` (true of well-formed
`"sha256:<hex>"` digests), the serialization separates any two file sets
that disagree at some path, so an injective hash yields distinct roots. -/
theorem computeMerkleRoot_separates (hash : String → String)
    (hinj : Function.Injective hash) (L : Nat) (A B : FileSet)
    (hAok : ∀ pd ∈ A, '\n' ∉ pd.1.data ∧ '\n' ∉ pd.2.data ∧ pd.2.length = L)
    (hBok : ∀ pd ∈ B, '\n' ∉ pd.1.data ∧ '\n' ∉ pd.2.data ∧ pd.2.length = L)
    (p : String) (hne : lookupKey A p ≠ lookupKey B p) :
    computeMerkleRoot hash A ≠ computeMerkleRoot hash B := by
  intro h
  apply hne
  have h1 : hash (serializeFileSet A) = hash (serializeFileSet B) := by
    have hd := congrArg String.data h
    simp only [computeMerkleRoot, String.data_append] at hd
    exact String.ext (List.append_cancel_left hd)
  have h3 : encodeLines (entriesChar A) = encodeLines (entriesChar B) := by
    rw [← serializeFileSet_data, ← serializeFileSet_data, hinj h1]
  exact lookupKey_eq_of_entriesOf
    (entriesOf_eq_of_entriesChar
      (encodeLines_injective L _ _ (okLines_entriesChar hAok)
        (okLines_entriesChar hBok) h3)) p

theorem computeMerkleRoot_separates_witness :
    lookupKey [("a", "x")] "a" ≠ lookupKey [("a", "y")] "a" ∧
      computeMerkleRoot id [("a", "x")] ≠ computeMerkleRoot id [("a", "y")] :=
  ⟨by decide,
    computeMerkleRoot_separates id (fun _ _ hx => hx) 1 [("a", "x")] [("a", "y")]
      (by decide) (by decide) "a" (by decide)⟩

/-! Error propagation from hashing: there is no catch between a failed
`hashFile` and the top-level handler. -/

theorem error_bind {α β : Type} (e : String) (f : α → Except String β) :
    (Except.error e : Except String α) >>= f = Except.error e := rfl

theorem ok_bind {α β : Type} (a : α) (f : α → Except String β) :
    (Except.ok a : Except String α) >>= f = f a := rfl

theorem hashAllFiles_error_of_missing (fsys : String → Option String) :
    ∀ (files : List String) (f : String), f ∈ files → fsys f = none →
      ∃ e, hashAllFiles fsys files = Except.error e := by
  intro files
  induction files with
  | nil => intro f hf; cases hf
  | cons g rest ih =>
      intro f hf hmiss
      cases hg : fsys g with
      | none => exact ⟨"ENOENT: " ++ g, by simp [hashAllFiles, hashFile, hg, error_bind, ok_bind]⟩
      | some d =>
          have hf' : f ∈ rest := by
            rcases List.mem_cons.mp hf with rfl | hf'
            · rw [hg] at hmiss; cases hmiss
            · exact hf'
          obtain ⟨e, he⟩ := ih f hf' hmiss
          exact ⟨e, by simp [hashAllFiles, hashFile, hg, he, error_bind, ok_bind]⟩

theorem prepareTask_error_of_missing (hash : String → String)
    (fsys : String → Option String) (spec : TaskSpec) (name : String)
    (lock : DeriveLock) (f : String) (hf : f ∈ spec.files)
    (hmiss : fsys f = none) :
    ∃ e, prepareTask hash fsys spec name lock = Except.error e := by
  have hne : spec.files.isEmpty = false := by
    cases hsf : spec.files with
    | nil => rw [hsf] at hf; cases hf
    | cons a l => rfl
  obtain ⟨e, he⟩ := hashAllFiles_error_of_missing fsys spec.files f hf hmiss
  exact ⟨e, by simp [prepareTask, hne, he, error_bind, ok_bind]⟩

theorem processTasksGo_error_of_vanished (hash : String → String)
    (fsys : String → Option String) (specs : String → TaskSpec)
    (exit_ : String → Int) (now : String → String) (lock : DeriveLock)
    (args : Args) (t f : String) (hf : f ∈ (specs t).files)
    (hmiss : fsys f = none) :
    ∀ (names : List String), t ∈ names → ∀ (acc : DeriveLock) (anyFailed : Bool),
      ∃ e, processTasksGo hash fsys specs exit_ now lock args names acc anyFailed =
        Except.error e := by
  intro names
  induction names with
  | nil => intro ht; cases ht
  | cons n rest ih =>
      intro ht acc anyFailed
      cases hprep : prepareTask hash fsys (specs n) n lock with
      | error e => exact ⟨e, by simp [processTasksGo, hprep, error_bind, ok_bind]⟩
      | ok octx =>
          have htn : t ∈ rest := by
            rcases List.mem_cons.mp ht with rfl | h'
            · obtain ⟨e, he⟩ :=
                prepareTask_error_of_missing hash fsys (specs t) t lock f hf hmiss
              rw [hprep] at he
              cases he
            · exact h'
          cases octx with
          | none =>
              obtain ⟨e, he⟩ := ih htn acc anyFailed
              exact ⟨e, by simp [processTasksGo, hprep, he, error_bind, ok_bind]⟩
          | some ctx =>
              by_cases hs : args.status
              · obtain ⟨e, he⟩ := ih htn acc anyFailed
                exact ⟨e, by simp [processTasksGo, hprep, hs, he, error_bind, ok_bind]⟩
              · by_cases hd : args.dryRun
                · obtain ⟨e, he⟩ := ih htn acc anyFailed
                  exact ⟨e, by simp [processTasksGo, hprep, hs, hd, he, error_bind, ok_bind]⟩
                · cases hrun :
                      (runTask args.force ctx (exit_ n) (now n)).entry with
                  | some entry =>
                      obtain ⟨e, he⟩ := ih htn
                        { version := acc.version
                          tasks := setKey acc.tasks n entry } anyFailed
                      exact ⟨e, by simp [processTasksGo, hprep, hs, hd, hrun, he, error_bind, ok_bind]⟩
                  | none =>
                      by_cases hcf : (ctx.diff.changed || args.force) = true
                      · obtain ⟨e, he⟩ := ih htn acc true
                        refine ⟨e, ?_⟩
                        simp [processTasksGo, hprep, hs, hd, hrun, hcf, he,
                          error_bind, ok_bind]
                        intro h1 h2
                        rw [h1, h2] at hcf
                        cases hcf
                      · obtain ⟨e, he⟩ := ih htn acc anyFailed
                        refine ⟨e, ?_⟩
                        simp [processTasksGo, hprep, hs, hd, hrun, hcf, he,
                          error_bind, ok_bind]
                        intro hor
                        exfalso
                        apply hcf
                        rcases hor with h | h <;> simp [h]

/-- C4 counterexample: task `"t"` resolves files `["a", "b"]` and file
`"b"` vanishes before hashing — `prepareTask` does not skip it but fails
with the stream error, and the same error escapes `processTasks`, so the
whole invocation aborts (it is caught only by the top-level handler,
which exits with code 1). -/
theorem prepareTask_vanished_counterexample :
    prepareTask id (fun p => if p = "a" then some "da" else none)
        { prompt := "pr", files := ["a", "b"] } "t"
        { version := 1, tasks := [] } =
      Except.error "ENOENT: b" ∧
      processTasks id (fun p => if p = "a" then some "da" else none)
          (fun _ => { prompt := "pr", files := ["a", "b"] }) (fun _ => 0)
          (fun _ => "T") ["t"] { version := 1, tasks := [] }
          { force := false, dryRun := false, status := false } =
        Except.error "ENOENT: b" :=
  ⟨rfl, rfl⟩

/-- C4 amended: when any file of any selected task cannot be read at
hashing time, the failure is not caught: `prepareTask` rejects, the error
escapes the task loop, and `processTasks` — the whole invocation — aborts
with it instead of skipping the file and continuing. -/
theorem processTasks_error_of_vanished (hash : String → String)
    (fsys : String → Option String) (specs : String → TaskSpec)
    (exit_ : String → Int) (now : String → String) (taskNames : List String)
    (lock : DeriveLock) (args : Args) (t f : String) (ht : t ∈ taskNames)
    (hf : f ∈ (specs t).files) (hmiss : fsys f = none) :
    ∃ e, processTasks hash fsys specs exit_ now taskNames lock args =
      Except.error e :=
  processTasksGo_error_of_vanished hash fsys specs exit_ now lock args t f hf
    hmiss taskNames ht { version := 1, tasks := lock.tasks } false

theorem processTasks_error_of_vanished_witness :
    (fun p => if p = "a" then some "da" else none) "b" = (none : Option String) ∧
      ∃ e, processTasks id (fun p => if p = "a" then some "da" else none)
          (fun _ => { prompt := "pr", files := ["a", "b"] }) (fun _ => 0)
          (fun _ => "T") ["t"] { version := 1, tasks := [] }
          { force := false, dryRun := false, status := false } =
        Except.error e :=
  ⟨rfl,
    processTasks_error_of_vanished id (fun p => if p = "a" then some "da" else none)
      (fun _ => { prompt := "pr", files := ["a", "b"] }) (fun _ => 0)
      (fun _ => "T") ["t"] { version := 1, tasks := [] }
      { force := false, dryRun := false, status := false } "t" "b"
      (by decide) (by decide) rfl⟩

/-! The frame property of the task loop: which lock entries change. -/

theorem processTasksGo_lookup (hash : String → String)
    (fsys : String → Option String) (specs : String → TaskSpec)
    (exit_ : String → Int) (now : String → String) (lock : DeriveLock)
    (args : Args) :
    ∀ (names : List String) (acc : DeriveLock) (anyFailed : Bool)
      (ul : DeriveLock) (fl : Bool),
      processTasksGo hash fsys specs exit_ now lock args names acc anyFailed =
        Except.ok (ul, fl) →
      ∀ t : String,
        lookupKey ul.tasks t =
          match prepareTask hash fsys (specs t) t lock with
          | Except.ok (some ctx) =>
              if t ∈ names ∧ args.status = false ∧ args.dryRun = false ∧
                  (ctx.diff.changed || args.force) = true ∧ exit_ t = 0 then
                some { last_run := now t, sources_hash := ctx.merkleRoot
                       files := ctx.fileHashes }
              else lookupKey acc.tasks t
          | _ => lookupKey acc.tasks t := by
  intro names
  induction names with
  | nil =>
      intro acc anyFailed ul fl h t
      rw [processTasksGo] at h
      injection h with h
      obtain ⟨rfl, rfl⟩ := Prod.mk.injEq .. ▸ h
      cases hpt : prepareTask hash fsys (specs t) t lock with
      | error e => rfl
      | ok octx => cases octx <;> simp
  | cons n rest ih =>
      intro acc anyFailed ul fl h t
      rw [processTasksGo] at h
      cases hprep : prepareTask hash fsys (specs n) n lock with
      | error e =>
          rw [hprep, error_bind] at h
          cases h
      | ok octx =>
          rw [hprep, ok_bind] at h
          cases octx with
          | none =>
              simp only [] at h
              have := ih acc anyFailed ul fl h t
              rw [this]
              by_cases htn : t = n
              · subst htn
                simp [hprep]
              · cases hpt : prepareTask hash fsys (specs t) t lock with
                | error e => rfl
                | ok octx' =>
                    cases octx' with
                    | none => rfl
                    | some ctx' => simp [List.mem_cons, htn]
          | some ctx =>
              simp only [] at h
              by_cases hst : args.status = true
              · rw [if_pos hst] at h
                have := ih acc anyFailed ul fl h t
                rw [this]
                cases hpt : prepareTask hash fsys (specs t) t lock with
                | error e => rfl
                | ok octx' =>
                    cases octx' with
                    | none => rfl
                    | some ctx' => simp [hst]
              · rw [if_neg hst] at h
                by_cases hdr : args.dryRun = true
                · rw [if_pos hdr] at h
                  have := ih acc anyFailed ul fl h t
                  rw [this]
                  cases hpt : prepareTask hash fsys (specs t) t lock with
                  | error e => rfl
                  | ok octx' =>
                      cases octx' with
                      | none => rfl
                      | some ctx' => simp [hdr]
                · rw [if_neg hdr] at h
                  by_cases hcf : (ctx.diff.changed || args.force) = true
                  · by_cases hex : exit_ n = 0
                    · have hrun : (runTask args.force ctx (exit_ n) (now n)).entry =
                          some { last_run := now n, sources_hash := ctx.merkleRoot
                                 files := ctx.fileHashes } := by
                        simp [runTask, hcf, hex]
                      rw [hrun] at h
                      have := ih
                        { version := acc.version
                          tasks := setKey acc.tasks n
                            { last_run := now n, sources_hash := ctx.merkleRoot
                              files := ctx.fileHashes } } anyFailed ul fl h t
                      rw [this]
                      by_cases htn : t = n
                      · subst htn
                        rw [hprep]
                        have hset : lookupKey (setKey acc.tasks t
                            { last_run := now t, sources_hash := ctx.merkleRoot
                              files := ctx.fileHashes }) t =
                            some { last_run := now t, sources_hash := ctx.merkleRoot
                                   files := ctx.fileHashes } := by
                          rw [lookupKey_setKey]
                          simp
                        simp only [hset]
                        by_cases htr : t ∈ rest <;>
                          simp [htr, hst, hdr, hcf, hex,
                            eq_false_of_ne_true hst, eq_false_of_ne_true hdr]
                      · cases hpt : prepareTask hash fsys (specs t) t lock with
                        | error e => simp [lookupKey_setKey, htn]
                        | ok octx' =>
                            cases octx' with
                            | none => simp [lookupKey_setKey, htn]
                            | some ctx' =>
                                simp [lookupKey_setKey, htn, List.mem_cons]
                    · have hrun : (runTask args.force ctx (exit_ n) (now n)).entry =
                          none := by
                        simp [runTask, hcf, hex]
                      rw [hrun] at h
                      rw [if_pos hcf] at h
                      have := ih acc true ul fl h t
                      rw [this]
                      by_cases htn : t = n
                      · subst htn
                        rw [hprep]
                        simp [hex]
                      · cases hpt : prepareTask hash fsys (specs t) t lock with
                        | error e => rfl
                        | ok octx' =>
                            cases octx' with
                            | none => rfl
                            | some ctx' => simp [List.mem_cons, htn]
                  · have hrun : (runTask args.force ctx (exit_ n) (now n)).entry =
                        none := by
                      have hcf' : (ctx.diff.changed || args.force) = false :=
                        eq_false_of_ne_true hcf
                      simp [runTask, hcf']
                    rw [hrun] at h
                    rw [if_neg hcf] at h
                    have := ih acc anyFailed ul fl h t
                    rw [this]
                    by_cases htn : t = n
                    · subst htn
                      rw [hprep]
                      simp [hcf]
                    · cases hpt : prepareTask hash fsys (specs t) t lock with
                      | error e => rfl
                      | ok octx' =>
                          cases octx' with
                          | none => rfl
                          | some ctx' => simp [List.mem_cons, htn]

/-- C6: for a completed run, a task name maps to a new lock entry exactly
when that task was selected, the mode was neither status nor dry-run, its
prepared diff (or force) made it eligible, and its runner exited 0 — the
entry then being built from this run's timestamp, root, and file hashes.
In every other case — task not processed, no files matched, skipped as
unchanged, runner failed, prepare result irrelevant — the task keeps
exactly the entry (or absence of one) of the loaded lock, so one task's
failure never alters another task's entry. -/
theorem processTasks_lock_update (hash : String → String)
    (fsys : String → Option String) (specs : String → TaskSpec)
    (exit_ : String → Int) (now : String → String) (taskNames : List String)
    (lock : DeriveLock) (args : Args) (ul : DeriveLock) (fl : Bool)
    (h : processTasks hash fsys specs exit_ now taskNames lock args =
      Except.ok (ul, fl)) (t : String) :
    lookupKey ul.tasks t =
      match prepareTask hash fsys (specs t) t lock with
      | Except.ok (some ctx) =>
          if t ∈ taskNames ∧ args.status = false ∧ args.dryRun = false ∧
              (ctx.diff.changed || args.force) = true ∧ exit_ t = 0 then
            some { last_run := now t, sources_hash := ctx.merkleRoot
                   files := ctx.fileHashes }
          else lookupKey lock.tasks t
      | _ => lookupKey lock.tasks t :=
  processTasksGo_lookup hash fsys specs exit_ now lock args taskNames
    { version := 1, tasks := lock.tasks } false ul fl h t

theorem processTasks_lock_update_witness :
    processTasks id (fun _ => some "d") (fun _ => { prompt := "pr", files := ["f"] })
        (fun n => if n = "t1" then 0 else 1) (fun _ => "T") ["t1", "t2"]
        { version := 1
          tasks := [("t2", { last_run := "old2", sources_hash := "sha256:old2"
                             files := [("f", "old")] }),
                    ("t3", { last_run := "old3", sources_hash := "sha256:old3"
                             files := [("g", "old")] })] }
        { force := false, dryRun := false, status := false } =
      Except.ok
        ({ version := 1
           tasks := [("t2", { last_run := "old2", sources_hash := "sha256:old2"
                              files := [("f", "old")] }),
                     ("t3", { last_run := "old3", sources_hash := "sha256:old3"
                              files := [("g", "old")] }),
                     ("t1", { last_run := "T"
                              sources_hash := computeMerkleRoot id [("f", "d")]
                              files := [("f", "d")] })] }, true) ∧
      lookupKey
          ([("t2", { last_run := "old2", sources_hash := "sha256:old2"
                     files := [("f", "old")] }),
            ("t3", { last_run := "old3", sources_hash := "sha256:old3"
                     files := [("g", "old")] }),
            ("t1", { last_run := "T"
                     sources_hash := computeMerkleRoot id [("f", "d")]
                     files := [("f", "d")] })] :
            List (String × TaskLockEntry)) "t2" =
        some { last_run := "old2", sources_hash := "sha256:old2"
               files := [("f", "old")] } :=
  ⟨rfl,
    (processTasks_lock_update id (fun _ => some "d")
        (fun _ => { prompt := "pr", files := ["f"] })
        (fun n => if n = "t1" then 0 else 1) (fun _ => "T") ["t1", "t2"]
        { version := 1
          tasks := [("t2", { last_run := "old2", sources_hash := "sha256:old2"
                             files := [("f", "old")] }),
                    ("t3", { last_run := "old3", sources_hash := "sha256:old3"
                             files := [("g", "old")] })] }
        { force := false, dryRun := false, status := false }
        { version := 1
          tasks := [("t2", { last_run := "old2", sources_hash := "sha256:old2"
                             files := [("f", "old")] }),
                    ("t3", { last_run := "old3", sources_hash := "sha256:old3"
                             files := [("g", "old")] }),
                    ("t1", { last_run := "T"
                             sources_hash := computeMerkleRoot id [("f", "d")]
                             files := [("f", "d")] })] } true rfl "t2").trans
      (by rfl)⟩

end Derive
